import Mathlib

/-!
Verification of the area-weighted raster-to-polygon aggregation engine of the
R4C-Cesium-Viewer ETL scripts, embedded shallowly over exact rationals.

Source files embedded:
- scripts/add_heat_data/add_heat_data.py (calculate_heat_exp, insert_to_db,
  calculate_temp_in_c)
- scripts/ndvi/calculate_ndvi.py (the identical aggregation loop)
- scripts/coldareas.py (calculateTempInC)
- scripts/normalise_landsat_b10/normalise_raster.py (the normalisation formula)

Numeric samples, coordinates and areas are rationals: the Python code uses
IEEE doubles, but every claim under study is about exact algebraic structure
(sums, products, quotients), which ℚ renders faithfully. The library geometry
engine (shapely) is external to the repository; a polygon is therefore
embedded as an oracle giving, for each raster-cell quadrilateral, the area of
its intersection with the polygon and whether that intersection is empty,
subject to the two facts the code relies on: areas are non-negative, and an
empty intersection has zero area. A computable instance for axis-aligned
rectangle polygons lets concrete scenarios evaluate.
-/

namespace R4C

/-- Affine transform with the six rasterio coefficients: the point (x, y) of a
grid position (col, row) is x = a*col + b*row + c, y = d*col + e*row + f,
matching `out_transform * (col, row)` in the Python sources. -/
structure AffineT where
  a : ℚ
  b : ℚ
  c : ℚ
  d : ℚ
  e : ℚ
  f : ℚ
deriving DecidableEq

/-- Application of an affine transform to a point, as rasterio's
`transform * (x, y)` tuple product. -/
def affinePt (T : AffineT) (p : ℚ × ℚ) : ℚ × ℚ :=
  (T.a * p.1 + T.b * p.2 + T.c, T.d * p.1 + T.e * p.2 + T.f)

/-- A quadrilateral given by its four corners in traversal order. -/
structure Quad where
  p0 : ℚ × ℚ
  p1 : ℚ × ℚ
  p2 : ℚ × ℚ
  p3 : ℚ × ℚ
deriving DecidableEq

/-- Cell polygon built by calculate_heat_exp (add_heat_data.py lines 111-118):
corners top_left = T(col, row), top_right = T(col+1, row),
bottom_right = T(col+1, row+1), bottom_left = T(col, row+1), and
`Polygon([top_left, top_right, bottom_right, bottom_left])`. -/
def cellPolygon (T : AffineT) (row col : ℕ) : Quad :=
  { p0 := affinePt T ((col : ℚ), (row : ℚ))
    p1 := affinePt T ((col : ℚ) + 1, (row : ℚ))
    p2 := affinePt T ((col : ℚ) + 1, (row : ℚ) + 1)
    p3 := affinePt T ((col : ℚ), (row : ℚ) + 1) }

/-- Area of a quadrilateral by the shoelace formula, the value shapely's
`.area` computes for a simple quadrilateral. -/
def quadArea (q : Quad) : ℚ :=
  |(q.p0.1 * q.p1.2 - q.p1.1 * q.p0.2) + (q.p1.1 * q.p2.2 - q.p2.1 * q.p1.2) +
    (q.p2.1 * q.p3.2 - q.p3.1 * q.p2.2) + (q.p3.1 * q.p0.2 - q.p0.1 * q.p3.2)| / 2

/-- A polygon, embedded through the two shapely operations the aggregation
loop performs on it: `polygon.intersection(cell_geom).area` (interArea) and
`polygon.intersection(cell_geom).is_empty` (interEmpty), together with the
geometric facts the code relies on: intersection areas are non-negative and
an empty intersection has area zero. -/
structure PolyGeom where
  interArea : Quad → ℚ
  interEmpty : Quad → Bool
  interArea_nonneg : ∀ q, 0 ≤ interArea q
  interEmpty_area : ∀ q, interEmpty q = true → interArea q = 0

/-- Body of the inner double loop of calculate_heat_exp (add_heat_data.py
lines 99-126) for one cell: the pair of increments to (total_value,
total_area). A cell whose value equals nodata or is negative is skipped, a
cell with an empty intersection is skipped, otherwise the increments are
(pixel_value * intersection_area, intersection_area). -/
def cellContribution (P : PolyGeom) (band : ℕ → ℕ → ℚ) (T : AffineT)
    (nodata : ℚ) (row col : ℕ) : ℚ × ℚ :=
  if band row col = nodata then (0, 0)
  else if band row col < 0 then (0, 0)
  else if P.interEmpty (cellPolygon T row col) then (0, 0)
  else (band row col * P.interArea (cellPolygon T row col),
        P.interArea (cellPolygon T row col))

/-- total_value accumulated by the double loop of calculate_heat_exp; rational
addition is exact and commutative, so the loop order is immaterial and the
accumulation is a finite sum. -/
def totalValue (P : PolyGeom) (band : ℕ → ℕ → ℚ) (T : AffineT) (nodata : ℚ)
    (rows cols : ℕ) : ℚ :=
  ∑ row ∈ Finset.range rows, ∑ col ∈ Finset.range cols,
    (cellContribution P band T nodata row col).1

/-- total_area accumulated by the double loop of calculate_heat_exp. -/
def totalArea (P : PolyGeom) (band : ℕ → ℕ → ℚ) (T : AffineT) (nodata : ℚ)
    (rows cols : ℕ) : ℚ :=
  ∑ row ∈ Finset.range rows, ∑ col ∈ Finset.range cols,
    (cellContribution P band T nodata row col).2

/-- Per-polygon result of calculate_heat_exp (add_heat_data.py lines 128-132):
`total_value / total_area` if `total_area > 0`, else np.nan. The NaN marker is
embedded as `none`. -/
def aggregate (P : PolyGeom) (band : ℕ → ℕ → ℚ) (T : AffineT) (nodata : ℚ)
    (rows cols : ℕ) : Option ℚ :=
  if 0 < totalArea P band T nodata rows cols then
    some (totalValue P band T nodata rows cols / totalArea P band T nodata rows cols)
  else
    none

/-- Axis-aligned rectangle [x0, x1] × [y0, y1], the polygon shape of the
spec's concrete scenarios. -/
structure Rect where
  x0 : ℚ
  x1 : ℚ
  y0 : ℚ
  y1 : ℚ
deriving DecidableEq

def Quad.minX (q : Quad) : ℚ := min (min q.p0.1 q.p1.1) (min q.p2.1 q.p3.1)

def Quad.maxX (q : Quad) : ℚ := max (max q.p0.1 q.p1.1) (max q.p2.1 q.p3.1)

def Quad.minY (q : Quad) : ℚ := min (min q.p0.2 q.p1.2) (min q.p2.2 q.p3.2)

def Quad.maxY (q : Quad) : ℚ := max (max q.p0.2 q.p1.2) (max q.p2.2 q.p3.2)

/-- Signed horizontal overlap of a rectangle with the bounding box of a quad;
for an axis-aligned quad the bounding box is the quad itself, so the overlap
is exact there. -/
def rectOverlapX (r : Rect) (q : Quad) : ℚ := min r.x1 q.maxX - max r.x0 q.minX

/-- Signed vertical overlap of a rectangle with the bounding box of a quad. -/
def rectOverlapY (r : Rect) (q : Quad) : ℚ := min r.y1 q.maxY - max r.y0 q.minY

/-- Intersection area of an axis-aligned rectangle with the bounding box of a
quad: exact for the axis-aligned cell quads arising from the diagonal
transforms of the spec's scenarios. -/
def rectInterArea (r : Rect) (q : Quad) : ℚ :=
  max 0 (rectOverlapX r q) * max 0 (rectOverlapY r q)

/-- Emptiness of the intersection of an axis-aligned rectangle with the
bounding box of a quad. Touching boundaries (zero-width overlap) are a
non-empty intersection of zero area, as in shapely. -/
def rectInterEmpty (r : Rect) (q : Quad) : Bool :=
  decide (rectOverlapX r q < 0 ∨ rectOverlapY r q < 0)

/-- The shapely geometry oracle for an axis-aligned rectangle polygon. -/
def rectPoly (r : Rect) : PolyGeom :=
  { interArea := rectInterArea r
    interEmpty := rectInterEmpty r
    interArea_nonneg := fun _ => mul_nonneg (le_max_left 0 _) (le_max_left 0 _)
    interEmpty_area := fun q h => by
      rcases of_decide_eq_true h with h1 | h1
      · rw [rectInterArea, max_eq_left (le_of_lt h1), zero_mul]
      · rw [rectInterArea, max_eq_left (le_of_lt h1), mul_zero] }

/-- The 2×2 raster of the spec's concrete scenario:
values [[10, -9999], [-9999, 20]], indexed (row, col). -/
def scenarioBand : ℕ → ℕ → ℚ
  | 0, 0 => 10
  | 0, 1 => -9999
  | 1, 0 => -9999
  | 1, 1 => 20
  | _, _ => -9999

/-- The scenario transform: cell (row 0, col 0) maps to the unit square
[0,1]×[0,1] and cell (1,1) to [1,2]×[1,2]. -/
def scenarioT : AffineT := ⟨1, 0, 0, 0, 1, 0⟩

/-- The scenario polygon covering [0,2]×[0,2]. -/
def fullSquare : PolyGeom := rectPoly ⟨0, 2, 0, 2⟩

/-- The scenario polygon covering [0, 1/2]×[0, 1/2], a quarter of cell (0,0). -/
def quarterCell : PolyGeom := rectPoly ⟨0, 1/2, 0, 1/2⟩

/-- Spec-side description of totalValue (§4.2 step 2 as restated by the
claim): the sum over all cells (row, col) with value v not equal to the
sentinel, v not negative, and non-empty intersection with P, of
v * area(P ∩ cellPolygon(transform, row, col)). Stated from the spec's words
to be compared with the source-shaped accumulation `totalValue`. -/
def specTotalValue (P : PolyGeom) (band : ℕ → ℕ → ℚ) (T : AffineT)
    (nodata : ℚ) (rows cols : ℕ) : ℚ :=
  ∑ row ∈ Finset.range rows, ∑ col ∈ Finset.range cols,
    if band row col ≠ nodata ∧ ¬band row col < 0 ∧
        P.interEmpty (cellPolygon T row col) = false then
      band row col * P.interArea (cellPolygon T row col)
    else 0

/-- Spec-side description of totalArea: the sum of the intersection areas of
the same cells as in `specTotalValue`. -/
def specTotalArea (P : PolyGeom) (band : ℕ → ℕ → ℚ) (T : AffineT)
    (nodata : ℚ) (rows cols : ℕ) : ℚ :=
  ∑ row ∈ Finset.range rows, ∑ col ∈ Finset.range cols,
    if band row col ≠ nodata ∧ ¬band row col < 0 ∧
        P.interEmpty (cellPolygon T row col) = false then
      P.interArea (cellPolygon T row col)
    else 0

/-- A cell contributes to the weighted mean when its value is valid (not the
sentinel, not negative), its intersection with the polygon is non-empty, and
the intersection area is positive. -/
def contributes (P : PolyGeom) (band : ℕ → ℕ → ℚ) (T : AffineT) (nodata : ℚ)
    (row col : ℕ) : Prop :=
  band row col ≠ nodata ∧ ¬band row col < 0 ∧
    P.interEmpty (cellPolygon T row col) = false ∧
    0 < P.interArea (cellPolygon T row col)

instance (P : PolyGeom) (band : ℕ → ℕ → ℚ) (T : AffineT) (nodata : ℚ)
    (row col : ℕ) : Decidable (contributes P band T nodata row col) :=
  inferInstanceAs (Decidable (_ ∧ _ ∧ _ ∧ _))

/-- calculate_temp_in_c (add_heat_data.py lines 210-224, identically
heat_exposure/calculate_and_insert.py and coldareas.py calculateTempInC):
denormalise the heat-exposure index to Kelvin with the reference
temperatures, then convert to Celsius. -/
def calculate_temp_in_c (heatexposure max_temp_k min_temp_k : ℚ) : ℚ :=
  heatexposure * (max_temp_k - min_temp_k) + min_temp_k - 273.15

/-- Normalisation formula of normalise_landsat_b10/normalise_raster.py
(`(band - actual_min) / (actual_max - actual_min)`), applied there to each
valid pixel. -/
def normalise (x actual_min actual_max : ℚ) : ℚ :=
  (x - actual_min) / (actual_max - actual_min)

/-- Input geometry for one polygon of a batch: either a well-formed polygon
(with its shapely oracle) or a malformed one (self-intersecting or with NaN
coordinates), on which the shapely intersection call raises. -/
inductive GeomInput where
  | wellformed : PolyGeom → GeomInput
  | malformed : GeomInput

/-- The error raised by shapely on a malformed geometry (a TopologicalError);
the aggregation loop has no handler for it. -/
inductive AggError where
  | topologyError : AggError
deriving DecidableEq

/-- Aggregation of a single polygon of the batch: a malformed geometry makes
the shapely intersection raise, which the loop body does not catch. -/
def aggregateOne (g : GeomInput) (band : ℕ → ℕ → ℚ) (T : AffineT)
    (nodata : ℚ) (rows cols : ℕ) : Except AggError (Option ℚ) :=
  match g with
  | .wellformed P => .ok (aggregate P band T nodata rows cols)
  | .malformed => .error .topologyError

/-- calculate_heat_exp's loop over the polygons of the GeoDataFrame
(add_heat_data.py lines 87-134): results are appended one polygon at a time,
and an uncaught exception while processing any polygon propagates out of the
function, discarding every accumulated result. -/
def calculate_heat_exp (gs : List GeomInput) (band : ℕ → ℕ → ℚ) (T : AffineT)
    (nodata : ℚ) (rows cols : ℕ) : Except AggError (List (Option ℚ)) :=
  match gs with
  | [] => .ok []
  | g :: rest =>
    match aggregateOne g band T nodata rows cols with
    | .error e => .error e
    | .ok r =>
      match calculate_heat_exp rest band T nodata rows cols with
      | .error e => .error e
      | .ok rs => .ok (r :: rs)

/-- One row of the GeoDataFrame handed to insert_to_db: the computed
avgheatexposure (none embeds the NaN marker) and the truthiness of the
geometry column. -/
structure BuildingRow where
  avgheatexposure : Option ℚ
  hasGeometry : Bool

/-- The predicate `row.avgheatexposure >= 0` of insert_to_db (add_heat_data.py
line 184): an IEEE-754 comparison, which is False when avgheatexposure is
NaN (embedded as none). -/
def avg_ge_zero : Option ℚ → Bool
  | none => false
  | some v => decide (0 ≤ v)

/-- The filter of insert_to_db building data_to_insert (add_heat_data.py
lines 182-192): keep a row when `row.avgheatexposure >= 0 and row.geometry`. -/
def rows_to_insert (rows : List BuildingRow) : List BuildingRow :=
  rows.filter fun row => avg_ge_zero row.avgheatexposure && row.hasGeometry

/-- Closed segment between two points of the rational plane. -/
def seg (u v : ℚ × ℚ) : Set (ℚ × ℚ) :=
  {p | ∃ t : ℚ, 0 ≤ t ∧ t ≤ 1 ∧
    p = ((1 - t) * u.1 + t * v.1, (1 - t) * u.2 + t * v.2)}

/-- Simplicity of a quadrilateral p0 p1 p2 p3: opposite edges are disjoint
and adjacent edges meet exactly in their shared corner. -/
def SimpleQuad (q : Quad) : Prop :=
  seg q.p0 q.p1 ∩ seg q.p2 q.p3 = ∅ ∧
  seg q.p1 q.p2 ∩ seg q.p3 q.p0 = ∅ ∧
  seg q.p0 q.p1 ∩ seg q.p1 q.p2 = {q.p1} ∧
  seg q.p2 q.p3 ∩ seg q.p1 q.p2 = {q.p2} ∧
  seg q.p2 q.p3 ∩ seg q.p3 q.p0 = {q.p3} ∧
  seg q.p0 q.p1 ∩ seg q.p3 q.p0 = {q.p0}

/-- A raster holding only the no-data sentinel, for the no-valid-data
scenario. -/
def nodataBand : ℕ → ℕ → ℚ := fun _ _ => -9999

/-- The scenario raster with the sentinel cell (0,1) replaced by the
negative invalid value -5. -/
def scenarioBandNeg : ℕ → ℕ → ℚ
  | 0, 0 => 10
  | 0, 1 => -5
  | 1, 0 => -9999
  | 1, 1 => 20
  | _, _ => -9999

/-- A batch whose middle polygon is malformed, between two well-formed
copies of the full scenario square. -/
def badBatch : List GeomInput :=
  [GeomInput.wellformed fullSquare, GeomInput.malformed, GeomInput.wellformed fullSquare]

/-- Unit grid square with lower corner (x, y) traversed in the order used by
cellPolygon, before the affine transform is applied. -/
def unitSquare (x y : ℚ) : Quad :=
  ⟨(x, y), (x + 1, y), (x + 1, y + 1), (x, y + 1)⟩

/-- Image of a quadrilateral under an affine transform. -/
def mapQuad (T : AffineT) (q : Quad) : Quad :=
  ⟨affinePt T q.p0, affinePt T q.p1, affinePt T q.p2, affinePt T q.p3⟩

theorem rectPoly_interArea (r : Rect) : (rectPoly r).interArea = rectInterArea r := rfl

theorem rectPoly_interEmpty (r : Rect) : (rectPoly r).interEmpty = rectInterEmpty r := rfl

theorem cellContribution_eq (P : PolyGeom) (band : ℕ → ℕ → ℚ) (T : AffineT)
    (nodata : ℚ) (row col : ℕ) :
    cellContribution P band T nodata row col =
      if band row col ≠ nodata ∧ ¬band row col < 0 ∧
          P.interEmpty (cellPolygon T row col) = false then
        (band row col * P.interArea (cellPolygon T row col),
         P.interArea (cellPolygon T row col))
      else (0, 0) := by
  unfold cellContribution
  by_cases h1 : band row col = nodata
  · simp [h1]
  · by_cases h2 : band row col < 0
    · simp [h1, h2]
    · by_cases h3 : P.interEmpty (cellPolygon T row col)
      · simp [h1, h2, h3]
      · simp [h1, h2, h3]

theorem cellContribution_invalid (P : PolyGeom) (band : ℕ → ℕ → ℚ)
    (T : AffineT) (nodata : ℚ) (row col : ℕ)
    (h : band row col = nodata ∨ band row col < 0) :
    cellContribution P band T nodata row col = (0, 0) := by
  rw [cellContribution_eq]
  rcases h with h1 | h1
  · rw [if_neg]
    intro hcon
    exact hcon.1 h1
  · rw [if_neg]
    intro hcon
    exact hcon.2.1 h1

theorem totalValue_eq_spec (P : PolyGeom) (band : ℕ → ℕ → ℚ) (T : AffineT)
    (nodata : ℚ) (rows cols : ℕ) :
    totalValue P band T nodata rows cols = specTotalValue P band T nodata rows cols := by
  unfold totalValue specTotalValue
  refine Finset.sum_congr rfl fun r _ => Finset.sum_congr rfl fun c _ => ?_
  rw [cellContribution_eq]
  split_ifs <;> rfl

theorem totalArea_eq_spec (P : PolyGeom) (band : ℕ → ℕ → ℚ) (T : AffineT)
    (nodata : ℚ) (rows cols : ℕ) :
    totalArea P band T nodata rows cols = specTotalArea P band T nodata rows cols := by
  unfold totalArea specTotalArea
  refine Finset.sum_congr rfl fun r _ => Finset.sum_congr rfl fun c _ => ?_
  rw [cellContribution_eq]
  split_ifs <;> rfl

theorem totalArea_nonneg (P : PolyGeom) (band : ℕ → ℕ → ℚ) (T : AffineT)
    (nodata : ℚ) (rows cols : ℕ) :
    0 ≤ totalArea P band T nodata rows cols := by
  refine Finset.sum_nonneg fun r _ => Finset.sum_nonneg fun c _ => ?_
  rw [cellContribution_eq]
  split_ifs
  · exact P.interArea_nonneg _
  · exact le_refl 0

theorem totalValue_nonneg (P : PolyGeom) (band : ℕ → ℕ → ℚ) (T : AffineT)
    (nodata : ℚ) (rows cols : ℕ) :
    0 ≤ totalValue P band T nodata rows cols := by
  refine Finset.sum_nonneg fun r _ => Finset.sum_nonneg fun c _ => ?_
  rw [cellContribution_eq]
  split_ifs with hcase
  · exact mul_nonneg (not_lt.mp hcase.2.1) (P.interArea_nonneg _)
  · exact le_refl 0

theorem scenario_aggregate_full :
    aggregate fullSquare scenarioBand scenarioT (-9999) 2 2 = some 15 := by
  norm_num [aggregate, totalValue, totalArea, Finset.sum_range_succ,
    cellContribution, scenarioBand, scenarioT, fullSquare,
    rectPoly_interArea, rectPoly_interEmpty, rectInterArea, rectInterEmpty,
    rectOverlapX, rectOverlapY, Quad.minX, Quad.maxX, Quad.minY, Quad.maxY,
    cellPolygon, affinePt]

theorem scenario_totalArea_pos :
    0 < totalArea fullSquare scenarioBand scenarioT (-9999) 2 2 := by
  norm_num [totalArea, Finset.sum_range_succ,
    cellContribution, scenarioBand, scenarioT, fullSquare,
    rectPoly_interArea, rectPoly_interEmpty, rectInterArea, rectInterEmpty,
    rectOverlapX, rectOverlapY, Quad.minX, Quad.maxX, Quad.minY, Quad.maxY,
    cellPolygon, affinePt]

theorem nodata_totalArea_zero :
    totalArea fullSquare nodataBand scenarioT (-9999) 2 2 = 0 := by
  norm_num [totalArea, Finset.sum_range_succ, cellContribution, nodataBand]

/-- C1: for every polygon, band, transform and sentinel, when the
accumulated valid area is positive the aggregate returns
totalValue / totalArea with both totals as the spec describes them (the sum
over cells with value different from the sentinel, non-negative, and
non-empty intersection, of the value times the intersection area, and of the
intersection areas); and on the 2×2 scenario raster [[10, -9999], [-9999, 20]]
with sentinel -9999, unit cells and the polygon [0,2]×[0,2] the result is
exactly 15. -/
theorem C1_aggregate_is_area_weighted_mean (P : PolyGeom) (band : ℕ → ℕ → ℚ)
    (T : AffineT) (nodata : ℚ) (rows cols : ℕ)
    (h : 0 < totalArea P band T nodata rows cols) :
    aggregate P band T nodata rows cols =
      some (specTotalValue P band T nodata rows cols /
        specTotalArea P band T nodata rows cols) ∧
    aggregate fullSquare scenarioBand scenarioT (-9999) 2 2 = some 15 := by
  refine ⟨?_, scenario_aggregate_full⟩
  rw [aggregate, if_pos h, totalValue_eq_spec, totalArea_eq_spec]

/-- Witness for C1 at the spec's concrete scenario. -/
theorem C1_witness :
    0 < totalArea fullSquare scenarioBand scenarioT (-9999) 2 2 ∧
    (aggregate fullSquare scenarioBand scenarioT (-9999) 2 2 =
      some (specTotalValue fullSquare scenarioBand scenarioT (-9999) 2 2 /
        specTotalArea fullSquare scenarioBand scenarioT (-9999) 2 2) ∧
     aggregate fullSquare scenarioBand scenarioT (-9999) 2 2 = some 15) :=
  ⟨scenario_totalArea_pos,
   C1_aggregate_is_area_weighted_mean fullSquare scenarioBand scenarioT (-9999) 2 2
     scenario_totalArea_pos⟩

/-- C2: when the accumulated valid intersection area is zero, the aggregate
returns the explicit no-data marker, which is distinct from every numeric
result (in particular it is not the number 0), and no exception is raised
(aggregate is a total function). -/
theorem C2_no_data_marker (P : PolyGeom) (band : ℕ → ℕ → ℚ) (T : AffineT)
    (nodata : ℚ) (rows cols : ℕ)
    (h : totalArea P band T nodata rows cols = 0) :
    aggregate P band T nodata rows cols = none ∧
    ∀ x : ℚ, aggregate P band T nodata rows cols ≠ some x := by
  have hnot : ¬0 < totalArea P band T nodata rows cols := by
    rw [h]
    exact lt_irrefl 0
  refine ⟨?_, ?_⟩
  · rw [aggregate, if_neg hnot]
  · intro x
    rw [aggregate, if_neg hnot]
    exact fun hx => Option.noConfusion hx

/-- Witness for C2 on a raster holding only the sentinel. -/
theorem C2_witness :
    totalArea fullSquare nodataBand scenarioT (-9999) 2 2 = 0 ∧
    (aggregate fullSquare nodataBand scenarioT (-9999) 2 2 = none ∧
     ∀ x : ℚ, aggregate fullSquare nodataBand scenarioT (-9999) 2 2 ≠ some x) :=
  ⟨nodata_totalArea_zero,
   C2_no_data_marker fullSquare nodataBand scenarioT (-9999) 2 2 nodata_totalArea_zero⟩

/-- C3: a cell whose value equals the sentinel or is negative contributes
zero weight: replacing every such value by any other sentinel or negative
value leaves the aggregate unchanged. -/
theorem C3_invalid_cells_contribute_nothing (P : PolyGeom)
    (band band' : ℕ → ℕ → ℚ) (T : AffineT) (nodata : ℚ) (rows cols : ℕ)
    (h : ∀ r, r < rows → ∀ c, c < cols →
      band r c = band' r c ∨
        ((band r c = nodata ∨ band r c < 0) ∧
         (band' r c = nodata ∨ band' r c < 0))) :
    aggregate P band T nodata rows cols = aggregate P band' T nodata rows cols := by
  have hstep : ∀ r, r < rows → ∀ c, c < cols →
      cellContribution P band T nodata r c = cellContribution P band' T nodata r c := by
    intro r hr c hc
    rcases h r hr c hc with heq | ⟨h1, h2⟩
    · unfold cellContribution
      rw [heq]
    · rw [cellContribution_invalid P band T nodata r c h1,
        cellContribution_invalid P band' T nodata r c h2]
  have hTV : totalValue P band T nodata rows cols = totalValue P band' T nodata rows cols := by
    unfold totalValue
    refine Finset.sum_congr rfl fun r hr => Finset.sum_congr rfl fun c hc => ?_
    rw [hstep r (Finset.mem_range.mp hr) c (Finset.mem_range.mp hc)]
  have hTA : totalArea P band T nodata rows cols = totalArea P band' T nodata rows cols := by
    unfold totalArea
    refine Finset.sum_congr rfl fun r hr => Finset.sum_congr rfl fun c hc => ?_
    rw [hstep r (Finset.mem_range.mp hr) c (Finset.mem_range.mp hc)]
  rw [aggregate, aggregate, hTV, hTA]

/-- Witness for C3: replacing the sentinel cell (0,1) of the scenario by the
negative value -5 leaves the aggregate unchanged. -/
theorem C3_witness :
    (∀ r, r < 2 → ∀ c, c < 2 →
      scenarioBand r c = scenarioBandNeg r c ∨
        ((scenarioBand r c = -9999 ∨ scenarioBand r c < 0) ∧
         (scenarioBandNeg r c = -9999 ∨ scenarioBandNeg r c < 0))) ∧
    aggregate fullSquare scenarioBand scenarioT (-9999) 2 2 =
      aggregate fullSquare scenarioBandNeg scenarioT (-9999) 2 2 :=
  ⟨by
    intro r hr c hc
    interval_cases r <;> interval_cases c <;> norm_num [scenarioBand, scenarioBandNeg],
   C3_invalid_cells_contribute_nothing fullSquare scenarioBand scenarioBandNeg
     scenarioT (-9999) 2 2 (by
      intro r hr c hc
      interval_cases r <;> interval_cases c <;> norm_num [scenarioBand, scenarioBandNeg])⟩

/-- C6: the unit conversion returns exactly
normalizedValue * (max - min) + min - 273.15. -/
theorem C6_temp_conversion (v max_temp_k min_temp_k : ℚ) :
    calculate_temp_in_c v max_temp_k min_temp_k =
      v * (max_temp_k - min_temp_k) + min_temp_k - 273.15 := rfl

/-- C7 counterexample: the round trip at the physical Kelvin value 300 with
reference range [280, 310] returns 26.85, not 300 — the conversion applies
the Kelvin-to-Celsius offset, so it does not return its input. -/
theorem C7_counterexample :
    calculate_temp_in_c (normalise 300 280 310) 310 280 ≠ 300 := by
  norm_num [calculate_temp_in_c, normalise]

/-- C7 amended: for min < max, the round trip
toPhysicalUnit(normalize(x, min, max), min, max) equals x - 273.15 exactly:
denormalisation inverts normalisation, and the fixed Kelvin-to-Celsius
offset is then subtracted. -/
theorem C7_roundtrip_amended (x mn mx : ℚ) (h : mn < mx) :
    calculate_temp_in_c (normalise x mn mx) mx mn = x - 273.15 := by
  have hne : mx - mn ≠ 0 := sub_ne_zero.mpr (ne_of_gt h)
  unfold calculate_temp_in_c normalise
  field_simp

/-- Witness for the amended C7 at x = 300, range [280, 310]. -/
theorem C7_witness :
    (280 : ℚ) < 310 ∧
    calculate_temp_in_c (normalise 300 280 310) 310 280 = 300 - 273.15 :=
  ⟨by norm_num, C7_roundtrip_amended 300 280 310 (by norm_num)⟩

/-- C9: the insert filter avgheatexposure >= 0 evaluates to false on the
NaN no-data marker, so no row whose aggregate result is the marker is ever
part of the batch handed to the database insert. -/
theorem C9_nan_rows_not_inserted :
    avg_ge_zero none = false ∧
    ∀ rows : List BuildingRow,
      ((rows_to_insert rows).all fun row => row.avgheatexposure.isSome) = true := by
  refine ⟨rfl, ?_⟩
  intro rows
  rw [List.all_eq_true]
  intro r hr
  rw [rows_to_insert] at hr
  obtain ⟨-, hpred⟩ := List.mem_filter.mp hr
  rw [Bool.and_eq_true] at hpred
  cases hav : r.avgheatexposure with
  | none =>
    rw [hav] at hpred
    exact absurd hpred.1 (by simp [avg_ge_zero])
  | some v =>
    simp [hav]

theorem quarterCell_cell00_area :
    quarterCell.interArea (cellPolygon scenarioT 0 0) = 1 / 4 := by
  norm_num [quarterCell, rectPoly_interArea, rectInterArea,
    rectOverlapX, rectOverlapY, Quad.minX, Quad.maxX, Quad.minY, Quad.maxY,
    cellPolygon, affinePt, scenarioT]

theorem quarterCell_other_cells_area :
    ∀ r, r < 2 → ∀ c, c < 2 → ¬(r = 0 ∧ c = 0) →
      quarterCell.interArea (cellPolygon scenarioT r c) = 0 := by
  intro r hr c hc hne
  interval_cases r <;> interval_cases c
  · exact absurd ⟨rfl, rfl⟩ hne
  all_goals
    norm_num [quarterCell, rectPoly_interArea, rectInterArea,
      rectOverlapX, rectOverlapY, Quad.minX, Quad.maxX, Quad.minY, Quad.maxY,
      cellPolygon, affinePt, scenarioT]

/-- C4: a polygon fully contained in the single raster cell (r0, c0) holding
the valid positive value v — positive intersection area with that cell, zero
intersection area with every other cell — aggregates to exactly v, whatever
the partial intersection area is. -/
theorem C4_single_cell_returns_value (P : PolyGeom) (band : ℕ → ℕ → ℚ)
    (T : AffineT) (nodata : ℚ) (rows cols r0 c0 : ℕ) (v : ℚ)
    (hr : r0 < rows) (hc : c0 < cols)
    (hv : band r0 c0 = v) (hpos : 0 < v) (hnd : v ≠ nodata)
    (hA : 0 < P.interArea (cellPolygon T r0 c0))
    (hother : ∀ r, r < rows → ∀ c, c < cols → ¬(r = r0 ∧ c = c0) →
      P.interArea (cellPolygon T r c) = 0) :
    aggregate P band T nodata rows cols = some v := by
  have hE : P.interEmpty (cellPolygon T r0 c0) = false := by
    cases hEq : P.interEmpty (cellPolygon T r0 c0)
    · rfl
    · exact absurd (P.interEmpty_area _ hEq) (ne_of_gt hA)
  have hmain : cellContribution P band T nodata r0 c0 =
      (v * P.interArea (cellPolygon T r0 c0), P.interArea (cellPolygon T r0 c0)) := by
    rw [cellContribution_eq,
      if_pos ⟨by rw [hv]; exact hnd, by rw [hv]; exact not_lt.mpr (le_of_lt hpos), hE⟩, hv]
  have hzero : ∀ r, r < rows → ∀ c, c < cols → ¬(r = r0 ∧ c = c0) →
      cellContribution P band T nodata r c = (0, 0) := by
    intro r hr' c hc' hne
    rw [cellContribution_eq]
    split_ifs with hcase
    · rw [hother r hr' c hc' hne, mul_zero]
    · rfl
  have hTV : totalValue P band T nodata rows cols =
      v * P.interArea (cellPolygon T r0 c0) := by
    unfold totalValue
    rw [Finset.sum_eq_single_of_mem r0 (Finset.mem_range.mpr hr)]
    · rw [Finset.sum_eq_single_of_mem c0 (Finset.mem_range.mpr hc)]
      · rw [hmain]
      · intro b hb hbne
        rw [hzero r0 hr b (Finset.mem_range.mp hb) fun hcon => hbne hcon.2]
    · intro a ha hane
      refine Finset.sum_eq_zero fun b hb => ?_
      rw [hzero a (Finset.mem_range.mp ha) b (Finset.mem_range.mp hb)
        fun hcon => hane hcon.1]
  have hTA : totalArea P band T nodata rows cols =
      P.interArea (cellPolygon T r0 c0) := by
    unfold totalArea
    rw [Finset.sum_eq_single_of_mem r0 (Finset.mem_range.mpr hr)]
    · rw [Finset.sum_eq_single_of_mem c0 (Finset.mem_range.mpr hc)]
      · rw [hmain]
      · intro b hb hbne
        rw [hzero r0 hr b (Finset.mem_range.mp hb) fun hcon => hbne hcon.2]
    · intro a ha hane
      refine Finset.sum_eq_zero fun b hb => ?_
      rw [hzero a (Finset.mem_range.mp ha) b (Finset.mem_range.mp hb)
        fun hcon => hane hcon.1]
  have hpos' : 0 < totalArea P band T nodata rows cols := by
    rw [hTA]
    exact hA
  rw [aggregate, if_pos hpos', hTV, hTA,
    mul_div_cancel_right₀ v (ne_of_gt hA)]

/-- Witness for C4: the quarter-of-cell polygon of the spec's second scenario
aggregates to exactly 10. -/
theorem C4_witness :
    0 < quarterCell.interArea (cellPolygon scenarioT 0 0) ∧
    aggregate quarterCell scenarioBand scenarioT (-9999) 2 2 = some 10 :=
  ⟨by rw [quarterCell_cell00_area]; norm_num,
   C4_single_cell_returns_value quarterCell scenarioBand scenarioT (-9999) 2 2 0 0 10
     (by norm_num) (by norm_num) rfl (by norm_num) (by norm_num)
     (by rw [quarterCell_cell00_area]; norm_num) quarterCell_other_cells_area⟩

/-- C10: a numeric aggregate result is a convex combination of the
contributing valid cell values: it lies between any lower and upper bound of
those values, and is in particular non-negative. -/
theorem C10_result_between_bounds (P : PolyGeom) (band : ℕ → ℕ → ℚ)
    (T : AffineT) (nodata : ℚ) (rows cols : ℕ) (lo hi : ℚ)
    (h : 0 < totalArea P band T nodata rows cols)
    (hlo : ∀ r, r < rows → ∀ c, c < cols →
      contributes P band T nodata r c → lo ≤ band r c)
    (hhi : ∀ r, r < rows → ∀ c, c < cols →
      contributes P band T nodata r c → band r c ≤ hi) :
    aggregate P band T nodata rows cols =
      some (totalValue P band T nodata rows cols / totalArea P band T nodata rows cols) ∧
    0 ≤ totalValue P band T nodata rows cols / totalArea P band T nodata rows cols ∧
    lo ≤ totalValue P band T nodata rows cols / totalArea P band T nodata rows cols ∧
    totalValue P band T nodata rows cols / totalArea P band T nodata rows cols ≤ hi := by
  have key_lo : ∀ r, r < rows → ∀ c, c < cols →
      lo * (cellContribution P band T nodata r c).2 ≤
        (cellContribution P band T nodata r c).1 := by
    intro r hr c hc
    rw [cellContribution_eq]
    split_ifs with hcase
    · dsimp only
      by_cases hApos : 0 < P.interArea (cellPolygon T r c)
      · exact mul_le_mul_of_nonneg_right
          (hlo r hr c hc ⟨hcase.1, hcase.2.1, hcase.2.2, hApos⟩) (le_of_lt hApos)
      · have hz : P.interArea (cellPolygon T r c) = 0 :=
          le_antisymm (not_lt.mp hApos) (P.interArea_nonneg _)
        rw [hz, mul_zero, mul_zero]
    · dsimp only
      rw [mul_zero]
  have key_hi : ∀ r, r < rows → ∀ c, c < cols →
      (cellContribution P band T nodata r c).1 ≤
        hi * (cellContribution P band T nodata r c).2 := by
    intro r hr c hc
    rw [cellContribution_eq]
    split_ifs with hcase
    · dsimp only
      by_cases hApos : 0 < P.interArea (cellPolygon T r c)
      · exact mul_le_mul_of_nonneg_right
          (hhi r hr c hc ⟨hcase.1, hcase.2.1, hcase.2.2, hApos⟩) (le_of_lt hApos)
      · have hz : P.interArea (cellPolygon T r c) = 0 :=
          le_antisymm (not_lt.mp hApos) (P.interArea_nonneg _)
        rw [hz, mul_zero, mul_zero]
    · dsimp only
      rw [mul_zero]
  have hlo_sum : lo * totalArea P band T nodata rows cols ≤
      totalValue P band T nodata rows cols := by
    unfold totalValue totalArea
    rw [Finset.mul_sum]
    refine Finset.sum_le_sum fun r hr => ?_
    rw [Finset.mul_sum]
    exact Finset.sum_le_sum fun c hc =>
      key_lo r (Finset.mem_range.mp hr) c (Finset.mem_range.mp hc)
  have hhi_sum : totalValue P band T nodata rows cols ≤
      hi * totalArea P band T nodata rows cols := by
    unfold totalValue totalArea
    rw [Finset.mul_sum]
    refine Finset.sum_le_sum fun r hr => ?_
    rw [Finset.mul_sum]
    exact Finset.sum_le_sum fun c hc =>
      key_hi r (Finset.mem_range.mp hr) c (Finset.mem_range.mp hc)
  refine ⟨by rw [aggregate, if_pos h],
    div_nonneg (totalValue_nonneg P band T nodata rows cols) (le_of_lt h), ?_, ?_⟩
  · rw [le_div_iff₀ h]
    exact hlo_sum
  · rw [div_le_iff₀ h]
    exact hhi_sum

/-- Witness for C10 at the concrete scenario with bounds 0 and 20. -/
theorem C10_witness :
    0 < totalArea fullSquare scenarioBand scenarioT (-9999) 2 2 ∧
    (aggregate fullSquare scenarioBand scenarioT (-9999) 2 2 =
      some (totalValue fullSquare scenarioBand scenarioT (-9999) 2 2 /
        totalArea fullSquare scenarioBand scenarioT (-9999) 2 2) ∧
     0 ≤ totalValue fullSquare scenarioBand scenarioT (-9999) 2 2 /
        totalArea fullSquare scenarioBand scenarioT (-9999) 2 2 ∧
     0 ≤ totalValue fullSquare scenarioBand scenarioT (-9999) 2 2 /
        totalArea fullSquare scenarioBand scenarioT (-9999) 2 2 ∧
     totalValue fullSquare scenarioBand scenarioT (-9999) 2 2 /
        totalArea fullSquare scenarioBand scenarioT (-9999) 2 2 ≤ 20) :=
  ⟨scenario_totalArea_pos,
   C10_result_between_bounds fullSquare scenarioBand scenarioT (-9999) 2 2 0 20
     scenario_totalArea_pos
     (by
      intro r hr c hc hcon
      interval_cases r <;> interval_cases c
      · norm_num [scenarioBand]
      · exact absurd rfl hcon.1
      · exact absurd rfl hcon.1
      · norm_num [scenarioBand])
     (by
      intro r hr c hc hcon
      interval_cases r <;> interval_cases c
      · norm_num [scenarioBand]
      · exact absurd rfl hcon.1
      · exact absurd rfl hcon.1
      · norm_num [scenarioBand])⟩

/-- C8 counterexample: in a batch whose middle polygon is malformed, the
loop's uncaught exception aborts the whole run — the batch returns the error
and produces no result for either well-formed sibling, contradicting the
claim that siblings are still processed. -/
theorem C8_counterexample :
    calculate_heat_exp badBatch scenarioBand scenarioT (-9999) 2 2 =
      Except.error AggError.topologyError := rfl

/-- C8 amended: the aggregation loop has no per-polygon error handling: a
malformed geometry's error aborts the entire batch, and results for the
polygons are produced exactly when every polygon in the batch is
well-formed. -/
theorem C8_batch_aborts_on_malformed (gs : List GeomInput) (band : ℕ → ℕ → ℚ)
    (T : AffineT) (nodata : ℚ) (rows cols : ℕ) :
    (∃ rs, calculate_heat_exp gs band T nodata rows cols = Except.ok rs) ↔
      ∀ g ∈ gs, g ≠ GeomInput.malformed := by
  induction gs with
  | nil =>
    simp [calculate_heat_exp]
  | cons g rest ih =>
    cases g with
    | malformed =>
      simp [calculate_heat_exp, aggregateOne]
    | wellformed P =>
      simp only [calculate_heat_exp, aggregateOne]
      cases hres : calculate_heat_exp rest band T nodata rows cols with
      | error e =>
        constructor
        · rintro ⟨rs, hrs⟩
          exact absurd hrs (by simp)
        · intro hall
          obtain ⟨rs, hrs⟩ := ih.mpr fun g hg => hall g (List.mem_cons_of_mem _ hg)
          rw [hres] at hrs
          exact absurd hrs (by simp)
      | ok rs =>
        constructor
        · intro _ g hg
          rcases List.mem_cons.mp hg with rfl | hgm
          · exact fun hcon => GeomInput.noConfusion hcon
          · exact (ih.mp ⟨rs, hres⟩) g hgm
        · intro _
          exact ⟨_, rfl⟩

theorem mem_seg_iff (x0 y0 x1 y1 : ℚ) (p : ℚ × ℚ) :
    p ∈ seg (x0, y0) (x1, y1) ↔
      ∃ t : ℚ, 0 ≤ t ∧ t ≤ 1 ∧
        p = ((1 - t) * x0 + t * x1, (1 - t) * y0 + t * y1) :=
  Iff.rfl

theorem affinePt_comb (T : AffineT) (t : ℚ) (u v : ℚ × ℚ) :
    affinePt T ((1 - t) * u.1 + t * v.1, (1 - t) * u.2 + t * v.2) =
      ((1 - t) * (affinePt T u).1 + t * (affinePt T v).1,
       (1 - t) * (affinePt T u).2 + t * (affinePt T v).2) := by
  unfold affinePt
  rw [Prod.mk.injEq]
  constructor <;> ring

theorem seg_map (T : AffineT) (u v : ℚ × ℚ) :
    seg (affinePt T u) (affinePt T v) = affinePt T '' seg u v := by
  ext p
  constructor
  · rintro ⟨t, h0, h1, rfl⟩
    exact ⟨((1 - t) * u.1 + t * v.1, (1 - t) * u.2 + t * v.2),
      ⟨t, h0, h1, rfl⟩, affinePt_comb T t u v⟩
  · rintro ⟨w, ⟨t, h0, h1, rfl⟩, rfl⟩
    exact ⟨t, h0, h1, affinePt_comb T t u v⟩

theorem affinePt_injective (T : AffineT) (h : T.a * T.e - T.b * T.d ≠ 0) :
    Function.Injective (affinePt T) := by
  rintro ⟨x, y⟩ ⟨x', y'⟩ hxy
  simp only [affinePt, Prod.mk.injEq] at hxy
  obtain ⟨h1, h2⟩ := hxy
  rw [Prod.mk.injEq]
  constructor
  · refine mul_left_cancel₀ h ?_
    linear_combination T.e * h1 - T.b * h2
  · refine mul_left_cancel₀ h ?_
    linear_combination T.a * h2 - T.d * h1

theorem unitSquare_simple (x y : ℚ) : SimpleQuad (unitSquare x y) := by
  have e1 : seg ((x, y) : ℚ × ℚ) (x + 1, y) ∩ seg (x + 1, y + 1) (x, y + 1) = ∅ := by
    rw [Set.eq_empty_iff_forall_not_mem]
    intro p hp
    obtain ⟨hp1, hp2⟩ := hp
    rw [mem_seg_iff] at hp1 hp2
    obtain ⟨t, ht0, ht1, hpt⟩ := hp1
    obtain ⟨s, hs0, hs1, hps⟩ := hp2
    have heq := hpt.symm.trans hps
    rw [Prod.mk.injEq] at heq
    have h2 := heq.2
    have hL : (1 - t) * y + t * y = y := by ring
    have hR : (1 - s) * (y + 1) + s * (y + 1) = y + 1 := by ring
    rw [hL, hR] at h2
    linarith
  have e2 : seg ((x + 1, y) : ℚ × ℚ) (x + 1, y + 1) ∩ seg (x, y + 1) (x, y) = ∅ := by
    rw [Set.eq_empty_iff_forall_not_mem]
    intro p hp
    obtain ⟨hp1, hp2⟩ := hp
    rw [mem_seg_iff] at hp1 hp2
    obtain ⟨t, ht0, ht1, hpt⟩ := hp1
    obtain ⟨s, hs0, hs1, hps⟩ := hp2
    have heq := hpt.symm.trans hps
    rw [Prod.mk.injEq] at heq
    have h1 := heq.1
    have hL : (1 - t) * (x + 1) + t * (x + 1) = x + 1 := by ring
    have hR : (1 - s) * x + s * x = x := by ring
    rw [hL, hR] at h1
    linarith
  have e3 : seg ((x, y) : ℚ × ℚ) (x + 1, y) ∩ seg (x + 1, y) (x + 1, y + 1) =
      {((x + 1, y) : ℚ × ℚ)} := by
    ext p
    constructor
    · intro hp
      obtain ⟨hp1, hp2⟩ := hp
      rw [mem_seg_iff] at hp1 hp2
      obtain ⟨t, ht0, ht1, hpt⟩ := hp1
      obtain ⟨s, hs0, hs1, hps⟩ := hp2
      have heq := hpt.symm.trans hps
      rw [Prod.mk.injEq] at heq
      have h1 := heq.1
      have hL : (1 - t) * x + t * (x + 1) = x + t := by ring
      have hR : (1 - s) * (x + 1) + s * (x + 1) = x + 1 := by ring
      rw [hL, hR] at h1
      have ht : t = 1 := by linarith
      rw [Set.mem_singleton_iff, hpt, ht, Prod.mk.injEq]
      constructor <;> ring
    · intro hp
      rw [Set.mem_singleton_iff] at hp
      subst hp
      constructor
      · rw [mem_seg_iff]
        exact ⟨1, by norm_num, by norm_num, by rw [Prod.mk.injEq]; constructor <;> ring⟩
      · rw [mem_seg_iff]
        exact ⟨0, by norm_num, by norm_num, by rw [Prod.mk.injEq]; constructor <;> ring⟩
  have e4 : seg ((x + 1, y + 1) : ℚ × ℚ) (x, y + 1) ∩ seg (x + 1, y) (x + 1, y + 1) =
      {((x + 1, y + 1) : ℚ × ℚ)} := by
    ext p
    constructor
    · intro hp
      obtain ⟨hp1, hp2⟩ := hp
      rw [mem_seg_iff] at hp1 hp2
      obtain ⟨t, ht0, ht1, hpt⟩ := hp1
      obtain ⟨s, hs0, hs1, hps⟩ := hp2
      have heq := hpt.symm.trans hps
      rw [Prod.mk.injEq] at heq
      have h1 := heq.1
      have hL : (1 - t) * (x + 1) + t * x = x + 1 - t := by ring
      have hR : (1 - s) * (x + 1) + s * (x + 1) = x + 1 := by ring
      rw [hL, hR] at h1
      have ht : t = 0 := by linarith
      rw [Set.mem_singleton_iff, hpt, ht, Prod.mk.injEq]
      constructor <;> ring
    · intro hp
      rw [Set.mem_singleton_iff] at hp
      subst hp
      constructor
      · rw [mem_seg_iff]
        exact ⟨0, by norm_num, by norm_num, by rw [Prod.mk.injEq]; constructor <;> ring⟩
      · rw [mem_seg_iff]
        exact ⟨1, by norm_num, by norm_num, by rw [Prod.mk.injEq]; constructor <;> ring⟩
  have e5 : seg ((x + 1, y + 1) : ℚ × ℚ) (x, y + 1) ∩ seg (x, y + 1) (x, y) =
      {((x, y + 1) : ℚ × ℚ)} := by
    ext p
    constructor
    · intro hp
      obtain ⟨hp1, hp2⟩ := hp
      rw [mem_seg_iff] at hp1 hp2
      obtain ⟨t, ht0, ht1, hpt⟩ := hp1
      obtain ⟨s, hs0, hs1, hps⟩ := hp2
      have heq := hpt.symm.trans hps
      rw [Prod.mk.injEq] at heq
      have h1 := heq.1
      have hL : (1 - t) * (x + 1) + t * x = x + 1 - t := by ring
      have hR : (1 - s) * x + s * x = x := by ring
      rw [hL, hR] at h1
      have ht : t = 1 := by linarith
      rw [Set.mem_singleton_iff, hpt, ht, Prod.mk.injEq]
      constructor <;> ring
    · intro hp
      rw [Set.mem_singleton_iff] at hp
      subst hp
      constructor
      · rw [mem_seg_iff]
        exact ⟨1, by norm_num, by norm_num, by rw [Prod.mk.injEq]; constructor <;> ring⟩
      · rw [mem_seg_iff]
        exact ⟨0, by norm_num, by norm_num, by rw [Prod.mk.injEq]; constructor <;> ring⟩
  have e6 : seg ((x, y) : ℚ × ℚ) (x + 1, y) ∩ seg (x, y + 1) (x, y) =
      {((x, y) : ℚ × ℚ)} := by
    ext p
    constructor
    · intro hp
      obtain ⟨hp1, hp2⟩ := hp
      rw [mem_seg_iff] at hp1 hp2
      obtain ⟨t, ht0, ht1, hpt⟩ := hp1
      obtain ⟨s, hs0, hs1, hps⟩ := hp2
      have heq := hpt.symm.trans hps
      rw [Prod.mk.injEq] at heq
      have h1 := heq.1
      have hL : (1 - t) * x + t * (x + 1) = x + t := by ring
      have hR : (1 - s) * x + s * x = x := by ring
      rw [hL, hR] at h1
      have ht : t = 0 := by linarith
      rw [Set.mem_singleton_iff, hpt, ht, Prod.mk.injEq]
      constructor <;> ring
    · intro hp
      rw [Set.mem_singleton_iff] at hp
      subst hp
      constructor
      · rw [mem_seg_iff]
        exact ⟨0, by norm_num, by norm_num, by rw [Prod.mk.injEq]; constructor <;> ring⟩
      · rw [mem_seg_iff]
        exact ⟨1, by norm_num, by norm_num, by rw [Prod.mk.injEq]; constructor <;> ring⟩
  exact ⟨e1, e2, e3, e4, e5, e6⟩

theorem mapQuad_simple (T : AffineT) (q : Quad)
    (hinj : Function.Injective (affinePt T)) (hq : SimpleQuad q) :
    SimpleQuad (mapQuad T q) := by
  obtain ⟨h1, h2, h3, h4, h5, h6⟩ := hq
  refine ⟨?_, ?_, ?_, ?_, ?_, ?_⟩
  · rw [show (mapQuad T q).p0 = affinePt T q.p0 from rfl,
      show (mapQuad T q).p1 = affinePt T q.p1 from rfl,
      show (mapQuad T q).p2 = affinePt T q.p2 from rfl,
      show (mapQuad T q).p3 = affinePt T q.p3 from rfl,
      seg_map, seg_map, ← Set.image_inter hinj, h1, Set.image_empty]
  · rw [show (mapQuad T q).p0 = affinePt T q.p0 from rfl,
      show (mapQuad T q).p1 = affinePt T q.p1 from rfl,
      show (mapQuad T q).p2 = affinePt T q.p2 from rfl,
      show (mapQuad T q).p3 = affinePt T q.p3 from rfl,
      seg_map, seg_map, ← Set.image_inter hinj, h2, Set.image_empty]
  · rw [show (mapQuad T q).p0 = affinePt T q.p0 from rfl,
      show (mapQuad T q).p1 = affinePt T q.p1 from rfl,
      show (mapQuad T q).p2 = affinePt T q.p2 from rfl,
      seg_map, seg_map, ← Set.image_inter hinj, h3, Set.image_singleton]
  · rw [show (mapQuad T q).p1 = affinePt T q.p1 from rfl,
      show (mapQuad T q).p2 = affinePt T q.p2 from rfl,
      show (mapQuad T q).p3 = affinePt T q.p3 from rfl,
      seg_map, seg_map, ← Set.image_inter hinj, h4, Set.image_singleton]
  · rw [show (mapQuad T q).p0 = affinePt T q.p0 from rfl,
      show (mapQuad T q).p2 = affinePt T q.p2 from rfl,
      show (mapQuad T q).p3 = affinePt T q.p3 from rfl,
      seg_map, seg_map, ← Set.image_inter hinj, h5, Set.image_singleton]
  · rw [show (mapQuad T q).p0 = affinePt T q.p0 from rfl,
      show (mapQuad T q).p1 = affinePt T q.p1 from rfl,
      show (mapQuad T q).p3 = affinePt T q.p3 from rfl,
      seg_map, seg_map, ← Set.image_inter hinj, h6, Set.image_singleton]

theorem cellPolygon_eq_mapQuad (T : AffineT) (row col : ℕ) :
    cellPolygon T row col = mapQuad T (unitSquare (col : ℚ) (row : ℚ)) := rfl

theorem quadArea_cellPolygon (T : AffineT) (row col : ℕ) :
    quadArea (cellPolygon T row col) = |T.a * T.e - T.b * T.d| := by
  have h2 : quadArea (cellPolygon T row col) =
      |2 * (T.a * T.e - T.b * T.d)| / 2 := by
    unfold quadArea cellPolygon affinePt
    congr 1
    congr 1
    ring
  rw [h2, abs_mul, abs_two]
  ring

/-- C5: for a non-degenerate affine transform, every cell polygon is a
simple quadrilateral whose area is the magnitude of the determinant of the
transform's linear part, the same for every (row, col). -/
theorem C5_cellPolygon_simple_and_const_area (T : AffineT) (row col : ℕ)
    (h : T.a * T.e - T.b * T.d ≠ 0) :
    SimpleQuad (cellPolygon T row col) ∧
    quadArea (cellPolygon T row col) = |T.a * T.e - T.b * T.d| ∧
    ∀ row' col' : ℕ,
      quadArea (cellPolygon T row' col') = quadArea (cellPolygon T row col) := by
  refine ⟨?_, quadArea_cellPolygon T row col, ?_⟩
  · rw [cellPolygon_eq_mapQuad]
    exact mapQuad_simple T _ (affinePt_injective T h) (unitSquare_simple _ _)
  · intro row' col'
    rw [quadArea_cellPolygon, quadArea_cellPolygon]

/-- Witness for C5 at the scenario's unit transform and cell (0, 0). -/
theorem C5_witness :
    scenarioT.a * scenarioT.e - scenarioT.b * scenarioT.d ≠ 0 ∧
    (SimpleQuad (cellPolygon scenarioT 0 0) ∧
     quadArea (cellPolygon scenarioT 0 0) =
       |scenarioT.a * scenarioT.e - scenarioT.b * scenarioT.d| ∧
     ∀ row' col' : ℕ,
       quadArea (cellPolygon scenarioT row' col') = quadArea (cellPolygon scenarioT 0 0)) :=
  ⟨by norm_num [scenarioT],
   C5_cellPolygon_simple_and_const_area scenarioT 0 0 (by norm_num [scenarioT])⟩

end R4C
